import Mathlib

/-!
Verification of the `thread_pool_executor` scheduler
(`source/executors/thread_pool_executor.cpp`).

The development is a shallow sequential embedding of the scheduler:

* the idle-worker set (`idle_worker_set`) becomes a record of an integer
  counter and a list of per-slot flags; its operations (`set_idle`,
  `set_active`, `try_acquire_flag`, `find_idle_worker`, `find_idle_workers`)
  are translated loop-for-loop from the C++;
* a worker (`thread_pool_worker`) becomes a record of its two task queues and
  its flags; `enqueue_local`, `enqueue_foreign`, `ensure_worker_active`,
  `balance_work` and `shutdown` are translated statement-for-statement.
  Semaphore releases and thread spawns are counted in the state so that the
  wake-economy properties can be stated;
* the blocking loop of `wait_for_task` is modelled as a function over an
  explicit finite trace of environment events (each event records the outcome
  of the timed semaphore acquire and the shared state observed when the lock
  is re-taken), returning `none` when the trace ends with the worker still
  parked;
* the pool (`thread_pool_executor`) becomes a record of its worker list, idle
  set, round-robin cursor and abort flag; `enqueue` and `shutdown` are
  translated branch-for-branch.

The intrusive task list `list<task>` lives in `concurrencpp/utils/list.h`,
which is not part of this repository snapshot; following the spec (§4.1) it
is an ordered sequence with `push_back` (single or spliced range),
`pop_front`, `pop_back` and `pop_front(k)` detaching the first `k` nodes, so
it is modelled as a Lean `List` with `take`/`drop`/append as those
operations.  Task handles are an opaque type variable.
-/

namespace ThreadPool

/-- Per-slot flag of the idle-worker set.  The enum lives in the (absent)
header; modelled from the spec: construction leaves the counter at 0 and the
pool constructor then calls `set_idle` on every slot to reach "all slots
`idle`, counter = `pool_size`", so the default-initialised value is
`active`. -/
inductive WStatus where
  | active : WStatus
  | idle : WStatus
deriving DecidableEq

/-- Model of `idle_worker_set`: approximate population counter (`std::atomic_int
m_approx_size`) and the per-slot flags (`m_idle_flags`, length `m_size`). -/
structure IdleWorkerSet where
  approxSize : Int
  idleFlags : List WStatus
deriving DecidableEq

/-- Constructor `idle_worker_set::idle_worker_set(size)`: counter 0, `size`
default-initialised flags. -/
def idle_worker_set_mk (size : Nat) : IdleWorkerSet :=
  { approxSize := 0, idleFlags := List.replicate size WStatus.active }

/-- Operation `idle_worker_set::set_idle`: exchange the slot to `idle`; increment the
counter only when the previous value was not already `idle`. -/
def set_idle (s : IdleWorkerSet) (i : Nat) : IdleWorkerSet :=
  let before := s.idleFlags.getD i WStatus.active
  let s' : IdleWorkerSet := { s with idleFlags := s.idleFlags.set i WStatus.idle }
  if before = WStatus.idle then s'
  else { s' with approxSize := s'.approxSize + 1 }

/-- Operation `idle_worker_set::set_active`: exchange the slot to `active`; decrement
the counter only when the previous value was not already `active`. -/
def set_active (s : IdleWorkerSet) (i : Nat) : IdleWorkerSet :=
  let before := s.idleFlags.getD i WStatus.active
  let s' : IdleWorkerSet := { s with idleFlags := s.idleFlags.set i WStatus.active }
  if before = WStatus.active then s'
  else { s' with approxSize := s'.approxSize - 1 }

/-- Operation `idle_worker_set::try_acquire_flag`: load the slot; fail fast if
`active`; otherwise exchange to `active` and report whether the exchange
actually changed the value, decrementing the counter when it did. -/
def try_acquire_flag (s : IdleWorkerSet) (i : Nat) : Bool × IdleWorkerSet :=
  let workerStatus := s.idleFlags.getD i WStatus.active
  if workerStatus = WStatus.active then (false, s)
  else
    let before := s.idleFlags.getD i WStatus.active
    let s' : IdleWorkerSet := { s with idleFlags := s.idleFlags.set i WStatus.active }
    let swapped := before = WStatus.idle
    if swapped then (true, { s' with approxSize := s'.approxSize - 1 })
    else (false, s')

/-- The circular scan order of the `for` loops in `find_idle_worker` /
`find_idle_workers`: indices `(start + i) % size` for `i = 0, …, size-1`. -/
def scanOrder (start size : Nat) : List Nat :=
  (List.range size).map fun i => (start + i) % size

/-- The scan loop of `idle_worker_set::find_idle_worker`: skip the caller's
slot, return the first index whose `try_acquire_flag` succeeds. -/
def fiwOneLoop (caller : Option Nat) : List Nat → IdleWorkerSet → Option Nat × IdleWorkerSet
  | [], s => (none, s)
  | idx :: rest, s =>
    if caller = some idx then fiwOneLoop caller rest s
    else
      match try_acquire_flag s idx with
      | (true, s') => (some idx, s')
      | (false, s') => fiwOneLoop caller rest s'

/-- Operation `idle_worker_set::find_idle_worker(caller_index)`.  The C++ sentinel
`(size_t)-1` (external producer) is modelled as `none`; `hashedId` is the
thread-local `this_thread_hashed_id` used to pick the starting position for
external producers. -/
def find_idle_worker (s : IdleWorkerSet) (caller : Option Nat) (hashedId : Nat) :
    Option Nat × IdleWorkerSet :=
  if s.approxSize ≤ 0 then (none, s)
  else
    let size := s.idleFlags.length
    let startingPos :=
      match caller with
      | some c => c
      | none => hashedId % size
    fiwOneLoop caller (scanOrder startingPos size) s

/-- The scan loop of `idle_worker_set::find_idle_workers`: run while
`count < maxWaiters`, skip the caller, append each acquired index to the
result buffer. -/
def fiwManyLoop (caller maxWaiters : Nat) :
    List Nat → IdleWorkerSet → Nat → List Nat → List Nat × IdleWorkerSet
  | [], s, _, acc => (acc, s)
  | idx :: rest, s, count, acc =>
    if count < maxWaiters then
      if idx = caller then fiwManyLoop caller maxWaiters rest s count acc
      else
        match try_acquire_flag s idx with
        | (true, s') => fiwManyLoop caller maxWaiters rest s' (count + 1) (acc ++ [idx])
        | (false, s') => fiwManyLoop caller maxWaiters rest s' count acc
    else (acc, s)

/-- Operation `idle_worker_set::find_idle_workers(caller_index, result_buffer,
max_count)`; returns the filled buffer (the C++ buffer starts empty: it is
`reserve`d at construction and cleared by `balance_work` after use). -/
def find_idle_workers (s : IdleWorkerSet) (caller : Nat) (maxCount : Nat) :
    List Nat × IdleWorkerSet :=
  if s.approxSize ≤ 0 then ([], s)
  else
    let size := s.idleFlags.length
    let maxWaiters := min s.approxSize.toNat maxCount
    fiwManyLoop caller maxWaiters (scanOrder caller size) s 0 []

/-- An `Op` is one idle-worker-set operation, used to state that any sequence
of operations preserves the counter invariant. -/
inductive IdleOp where
  | opSetIdle (i : Nat) : IdleOp
  | opSetActive (i : Nat) : IdleOp
  | opTryAcquire (i : Nat) : IdleOp

/-- Apply one idle-worker-set operation. -/
def applyIdleOp (s : IdleWorkerSet) : IdleOp → IdleWorkerSet
  | IdleOp.opSetIdle i => set_idle s i
  | IdleOp.opSetActive i => set_active s i
  | IdleOp.opTryAcquire i => (try_acquire_flag s i).2

/-- Apply a sequence of idle-worker-set operations, oldest first. -/
def applyIdleOps (s : IdleWorkerSet) : List IdleOp → IdleWorkerSet
  | [] => s
  | op :: rest => applyIdleOps (applyIdleOp s op) rest

/-- The slot index an idle-worker-set operation touches. -/
def IdleOp.index : IdleOp → Nat
  | IdleOp.opSetIdle i => i
  | IdleOp.opSetActive i => i
  | IdleOp.opTryAcquire i => i

/-- Number of slots whose flag is `idle`. -/
def countIdle (flags : List WStatus) : Nat :=
  (flags.filter fun f => f = WStatus.idle).length

/-- The quiescent invariant of the idle-worker set: the approximate counter
equals the number of `idle` slots, and every operation index stays in
range. -/
def IdleInv (s : IdleWorkerSet) : Prop :=
  s.approxSize = (countIdle s.idleFlags : Int)

/-- The idle-set part of `thread_pool_executor`'s constructor: build the set
for `pool_size` slots, then `set_idle(i)` for every `i`. -/
def pool_mk_idle_set (poolSize : Nat) : IdleWorkerSet :=
  (List.range poolSize).foldl (fun s i => set_idle s i) (idle_worker_set_mk poolSize)

/-- State of one `thread_pool_worker` as far as the sequential model needs:
the two task queues, the four flags, and instrumentation counters for the
binary semaphore releases and thread spawns performed so far. -/
structure WorkerState (τ : Type) where
  privateQueue : List τ
  publicQueue : List τ
  idle : Bool
  abort : Bool
  atomicAbort : Bool
  taskFoundOrAbort : Bool
  semReleases : Nat
  spawnCount : Nat
deriving DecidableEq

/-- A worker as constructed by `thread_pool_worker`'s constructor: empty
queues, `m_idle = true`, both aborts clear, `m_task_found_or_abort = false`,
semaphore at 0 and no thread spawned. -/
def worker_mk (τ : Type) : WorkerState τ :=
  { privateQueue := [], publicQueue := [], idle := true, abort := false,
    atomicAbort := false, taskFoundOrAbort := false, semReleases := 0, spawnCount := 0 }

/-- Hint `thread_pool_worker::appears_empty`. -/
def appears_empty {τ : Type} (w : WorkerState τ) : Bool :=
  w.privateQueue.isEmpty && !w.taskFoundOrAbort

/-- Wake protocol `thread_pool_worker::ensure_worker_active(first_enqueuer, lock)`: if the
worker is running, release the semaphore exactly when the caller was the
first enqueuer; if it is idle, spawn a fresh thread and clear `m_idle`
without touching the semaphore. -/
def ensure_worker_active {τ : Type} (first : Bool) (w : WorkerState τ) : WorkerState τ :=
  if w.idle = false then
    if first then { w with semReleases := w.semReleases + 1 } else w
  else
    { w with idle := false, spawnCount := w.spawnCount + 1 }

/-- Result of an enqueue entry point: the worker state after the call and
whether `throw_runtime_shutdown_exception` was raised (a C++ throw before any
mutation leaves the object unchanged). -/
structure EnqResult (τ : Type) where
  state : WorkerState τ
  threw : Bool
deriving DecidableEq

/-- Entry point `thread_pool_worker::enqueue_foreign(task&)`: under the lock, fail with
shutdown if `m_abort`; else set `m_task_found_or_abort`, note whether the
public queue was empty, push, and run the wake protocol. -/
def enqueue_foreign {τ : Type} (w : WorkerState τ) (t : τ) : EnqResult τ :=
  if w.abort then { state := w, threw := true }
  else
    let w1 : WorkerState τ := { w with taskFoundOrAbort := true }
    let isEmpty := w1.publicQueue.isEmpty
    let w2 : WorkerState τ := { w1 with publicQueue := w1.publicQueue ++ [t] }
    { state := ensure_worker_active isEmpty w2, threw := false }

/-- Entry point `thread_pool_worker::enqueue_foreign(head, tail, count)`: same as the
single-task overload but splicing a whole range onto the public queue. -/
def enqueue_foreign_splice {τ : Type} (w : WorkerState τ) (ts : List τ) : EnqResult τ :=
  if w.abort then { state := w, threw := true }
  else
    let w1 : WorkerState τ := { w with taskFoundOrAbort := true }
    let isEmpty := w1.publicQueue.isEmpty
    let w2 : WorkerState τ := { w1 with publicQueue := w1.publicQueue ++ ts }
    { state := ensure_worker_active isEmpty w2, threw := false }

/-- Entry point `thread_pool_worker::enqueue_local`: fail with shutdown if
`m_atomic_abort`; otherwise append to the private queue with no locking. -/
def enqueue_local {τ : Type} (w : WorkerState τ) (t : τ) : EnqResult τ :=
  if w.atomicAbort then { state := w, threw := true }
  else { state := { w with privateQueue := w.privateQueue ++ [t] }, threw := false }

/-- The drain loops at the end of `thread_pool_worker::shutdown`: pop the
queue from the front and `interrupt()` each task until it is empty; returns
the tasks in interruption order. -/
def drainInterrupt {τ : Type} : List τ → List τ
  | [] => []
  | t :: rest => t :: drainInterrupt rest

/-- Operation `thread_pool_worker::shutdown()`: set `m_atomic_abort`; set `m_abort`
under the lock; set `m_task_found_or_abort`; release the semaphore; join the
thread; move both queues out under the lock; interrupt every task of the
public then of the private queue, front to back.  Returns the state after the
call together with the list of interrupted tasks in interruption order. -/
def worker_shutdown {τ : Type} (w : WorkerState τ) : WorkerState τ × List τ :=
  let w1 : WorkerState τ := { w with atomicAbort := true }
  let w2 : WorkerState τ := { w1 with abort := true }
  let w3 : WorkerState τ := { w2 with taskFoundOrAbort := true }
  let w4 : WorkerState τ := { w3 with semReleases := w3.semReleases + 1 }
  let publicQ := w4.publicQueue
  let privateQ := w4.privateQueue
  let w5 : WorkerState τ := { w4 with publicQueue := [], privateQueue := [] }
  (w5, drainInterrupt publicQ ++ drainInterrupt privateQ)

/-- The shared state of a worker observed under its mutex, as
`wait_for_task` sees it: the public queue and the `m_abort` / `m_idle`
flags. -/
structure WShared (τ : Type) where
  publicQueue : List τ
  abort : Bool
  idle : Bool
deriving DecidableEq

/-- One iteration of the park loop of `wait_for_task`, as the environment
resolves it: whether `try_acquire_until` returned, whether `now` was still
within the deadline when it did not, the value of the unlocked
`m_task_found_or_abort` load, and the shared state observed if and when the
lock is re-taken in this iteration. -/
structure WFTEvent (τ : Type) where
  semAcquired : Bool
  beforeDeadline : Bool
  tfa : Bool
  lockedShared : WShared τ
deriving DecidableEq

/-- The park loop of `wait_for_task`, consuming one environment event per
iteration.  `some none`: timed out (broke with the lock released);
`some (some sh)`: event found while holding the lock with shared state `sh`;
`none`: the trace ended with the worker still parked. -/
def wftLoop {τ : Type} : List (WFTEvent τ) → Option (Option (WShared τ))
  | [] => none
  | e :: rest =>
    if e.semAcquired = false then
      if e.beforeDeadline then wftLoop rest else some none
    else if e.tfa = false then wftLoop rest
    else if e.lockedShared.publicQueue.isEmpty && !e.lockedShared.abort then wftLoop rest
    else some (some e.lockedShared)

/-- Model of `thread_pool_worker::wait_for_task(lock)` over an explicit environment
trace.  `s` is the shared state on entry (lock held); `exitObs` is the shared
state observed by the re-lock after a timeout break.  Returns
`some (result, lockHeldOnReturn, finalSharedState)`, or `none` when the trace
ends with the worker still parked. -/
def wait_for_task {τ : Type} (s : WShared τ) (events : List (WFTEvent τ))
    (exitObs : WShared τ) : Option (Bool × Bool × WShared τ) :=
  if !s.publicQueue.isEmpty || s.abort then some (true, true, s)
  else
    match wftLoop events with
    | none => none
    | some res =>
      let eventFound := res.isSome
      let sh := match res with
        | none => exitObs
        | some sh => sh
      if !eventFound || sh.abort then some (false, false, { sh with idle := true })
      else some (true, true, sh)

/-- The donation loop of `thread_pool_worker::balance_work`: for each
acquired peer give `donation_count` tasks plus one more while `extra` lasts,
splicing them off the front of the private queue.  Returns the remaining
private queue and the `(peer index, spliced tasks)` donations in order. -/
def donateLoop {τ : Type} : List τ → List Nat → Nat → Nat → List τ × List (Nat × List τ)
  | priv, [], _, _ => (priv, [])
  | priv, j :: rest, donationCount, extra =>
    let currentDonationCount := if extra ≠ 0 then donationCount + 1 else donationCount
    let extra' := if extra ≠ 0 then extra - 1 else extra
    let headRange := priv.take currentDonationCount
    let priv' := priv.drop currentDonationCount
    let dl := donateLoop priv' rest donationCount extra'
    (dl.1, (j, headRange) :: dl.2)

/-- Donation algorithm `thread_pool_worker::balance_work()` for the worker at `index` of a pool
of `poolSize` workers whose idle set is `iset`: returns the worker's private
queue after donating, the donations performed (peer index and spliced range,
in order), and the idle set after `find_idle_workers`. -/
def balance_work {τ : Type} (priv : List τ) (iset : IdleWorkerSet)
    (poolSize index : Nat) : List τ × List (Nat × List τ) × IdleWorkerSet :=
  let taskCount := priv.length
  if taskCount < 2 then (priv, [], iset)
  else
    let maxIdleWorkerCount := min (poolSize - 1) (taskCount - 1)
    if maxIdleWorkerCount = 0 then (priv, [], iset)
    else
      let fr := find_idle_workers iset index maxIdleWorkerCount
      if fr.1.length = 0 then (priv, [], fr.2)
      else
        let totalWorkerCount := fr.1.length + 1
        let donationCount := taskCount / totalWorkerCount
        let extra := taskCount - donationCount * totalWorkerCount
        let dl := donateLoop priv fr.1 donationCount extra
        (dl.1, dl.2, fr.2)

/-- The bounds check of the assertion in `thread_pool_executor::worker_at`
(`assert(index <= m_workers.size())`). -/
def worker_at_assert_check (index size : Nat) : Bool :=
  decide (index ≤ size)

/-- State of the `thread_pool_executor`: the workers, the idle-worker set,
the round-robin cursor and the pool-level abort flag. -/
structure PoolState (τ : Type) where
  workers : List (WorkerState τ)
  idleSet : IdleWorkerSet
  roundRobin : Nat
  abort : Bool
deriving DecidableEq

/-- Where `thread_pool_executor::enqueue` routed a task. -/
inductive Route where
  | localFast (i : Nat) : Route
  | idleForeign (i : Nat) : Route
  | localFallback (i : Nat) : Route
  | roundRobinForeign (i : Nat) : Route
deriving DecidableEq

/-- The slow path of `thread_pool_executor::enqueue` (everything after the
`appears_empty` fast path failed or there is no current worker). -/
def pool_enqueue_slow {τ : Type} (p : PoolState τ) (self : Option Nat)
    (hashedId : Nat) (t : τ) : Route × PoolState τ :=
  let fr := find_idle_worker p.idleSet self hashedId
  match fr.1 with
  | some j =>
    (Route.idleForeign j,
     { p with idleSet := fr.2,
              workers := p.workers.set j (enqueue_foreign (p.workers.getD j (worker_mk τ)) t).state })
  | none =>
    match self with
    | some i =>
      (Route.localFallback i,
       { p with idleSet := fr.2,
                workers := p.workers.set i (enqueue_local (p.workers.getD i (worker_mk τ)) t).state })
    | none =>
      let nextWorker := p.roundRobin % p.workers.length
      (Route.roundRobinForeign nextWorker,
       { p with idleSet := fr.2, roundRobin := p.roundRobin + 1,
                workers := p.workers.set nextWorker
                  (enqueue_foreign (p.workers.getD nextWorker (worker_mk τ)) t).state })

/-- Routing `thread_pool_executor::enqueue(task&)`.  `self` is the thread-local
current worker index (`none` for an external producer, in which case the
thread-local index is the sentinel); `hashedId` is the thread-local hashed
thread id.  Returns the route taken and the pool state after the call. -/
def pool_enqueue {τ : Type} (p : PoolState τ) (self : Option Nat)
    (hashedId : Nat) (t : τ) : Route × PoolState τ :=
  match self with
  | some i =>
    if appears_empty (p.workers.getD i (worker_mk τ)) then
      (Route.localFast i,
       { p with workers := p.workers.set i (enqueue_local (p.workers.getD i (worker_mk τ)) t).state })
    else pool_enqueue_slow p self hashedId t
  | none => pool_enqueue_slow p self hashedId t

/-- Query `thread_pool_executor::shutdown_requested()`. -/
def shutdown_requested {τ : Type} (p : PoolState τ) : Bool :=
  p.abort

/-- Operation `thread_pool_executor::shutdown()`: exchange the abort flag; if it was
already set return immediately, else call `shutdown()` on every worker in
index order.  Returns the pool state after the call and the tasks each worker
interrupted (empty when the call returned early). -/
def pool_shutdown {τ : Type} (p : PoolState τ) : PoolState τ × List (List τ) :=
  let wasAborted := p.abort
  let p1 : PoolState τ := { p with abort := true }
  if wasAborted then (p1, [])
  else
    let results := p1.workers.map worker_shutdown
    ({ p1 with workers := results.map Prod.fst }, results.map Prod.snd)

/-! ## Concrete fixtures used by the witness theorems -/

/-- A running worker holding queued tasks. -/
def sampleBusyWorker : WorkerState Nat :=
  { privateQueue := [3], publicQueue := [1, 2], idle := false, abort := false,
    atomicAbort := false, taskFoundOrAbort := true, semReleases := 0, spawnCount := 1 }

/-- A running worker with an empty public queue. -/
def sampleRunningWorker : WorkerState Nat :=
  { privateQueue := [], publicQueue := [], idle := false, abort := false,
    atomicAbort := false, taskFoundOrAbort := false, semReleases := 0, spawnCount := 1 }

/-- A fresh two-slot idle-worker set with both slots idle. -/
def sampleIdleSet2 : IdleWorkerSet :=
  { approxSize := 2, idleFlags := [WStatus.idle, WStatus.idle] }

/-- A fresh two-worker pool. -/
def samplePool2 : PoolState Nat :=
  { workers := [worker_mk Nat, worker_mk Nat], idleSet := sampleIdleSet2,
    roundRobin := 0, abort := false }

/-- Shared worker state with nothing queued. -/
def sampleShared : WShared Nat :=
  { publicQueue := [], abort := false, idle := false }

/-- Shared worker state observed with one queued task. -/
def sampleLockedShared : WShared Nat :=
  { publicQueue := [42], abort := false, idle := false }

/-- A park-loop event: genuine wake with a task available. -/
def sampleEvent : WFTEvent Nat :=
  { semAcquired := true, beforeDeadline := true, tfa := true,
    lockedShared := sampleLockedShared }

/-! ## Helper lemmas -/

/-- The wake protocol never touches the public queue. -/
theorem ensure_worker_active_publicQueue {τ : Type} (first : Bool) (w : WorkerState τ) :
    (ensure_worker_active first w).publicQueue = w.publicQueue := by
  unfold ensure_worker_active
  split
  · split <;> rfl
  · rfl

/-- The wake protocol never touches the private queue. -/
theorem ensure_worker_active_privateQueue {τ : Type} (first : Bool) (w : WorkerState τ) :
    (ensure_worker_active first w).privateQueue = w.privateQueue := by
  unfold ensure_worker_active
  split
  · split <;> rfl
  · rfl

/-- The shutdown drain loop interrupts exactly the tasks of the queue, front
to back. -/
theorem drainInterrupt_id {τ : Type} (l : List τ) : drainInterrupt l = l := by
  induction l with
  | nil => rfl
  | cons t rest ih => simp [drainInterrupt, ih]

/-! ## Claim theorems -/

/-- C3: `thread_pool_worker::shutdown` sets `atomic_abort`, `abort` and
`task_found_or_abort`, releases the semaphore once, empties both queues, and
interrupts exactly the tasks that were queued — public queue first, then
private queue, each front-to-back, each task exactly once. -/
theorem worker_shutdown_interrupts_all {τ : Type} [DecidableEq τ] (w : WorkerState τ) :
    (worker_shutdown w).1.publicQueue = [] ∧
    (worker_shutdown w).1.privateQueue = [] ∧
    (worker_shutdown w).2 = w.publicQueue ++ w.privateQueue ∧
    (worker_shutdown w).1.atomicAbort = true ∧
    (worker_shutdown w).1.abort = true ∧
    (worker_shutdown w).1.taskFoundOrAbort = true ∧
    (worker_shutdown w).1.semReleases = w.semReleases + 1 ∧
    ∀ x : τ, (worker_shutdown w).2.count x =
      w.publicQueue.count x + w.privateQueue.count x := by
  simp [worker_shutdown, drainInterrupt_id, List.count_append]

/-- Witness for C3 at a concrete worker. -/
theorem worker_shutdown_interrupts_all_witness :
    (worker_shutdown sampleBusyWorker).2 = ([1, 2] : List Nat) ++ [3] :=
  (worker_shutdown_interrupts_all sampleBusyWorker).2.2.1

/-- C4: `enqueue_local` throws the shutdown error iff `atomic_abort` is set
and `enqueue_foreign` (both overloads) iff `abort` is set; on error the
worker is unchanged, on success exactly the submitted task (or spliced range)
is appended to the back of the corresponding queue and the other queue is
untouched. -/
theorem enqueue_error_iff {τ : Type} (w : WorkerState τ) (t : τ) (ts : List τ) :
    ((enqueue_local w t).threw = w.atomicAbort ∧
     (w.atomicAbort = true → (enqueue_local w t).state = w) ∧
     (w.atomicAbort = false →
       (enqueue_local w t).state.privateQueue = w.privateQueue ++ [t] ∧
       (enqueue_local w t).state.publicQueue = w.publicQueue)) ∧
    ((enqueue_foreign w t).threw = w.abort ∧
     (w.abort = true → (enqueue_foreign w t).state = w) ∧
     (w.abort = false →
       (enqueue_foreign w t).state.publicQueue = w.publicQueue ++ [t] ∧
       (enqueue_foreign w t).state.privateQueue = w.privateQueue)) ∧
    ((enqueue_foreign_splice w ts).threw = w.abort ∧
     (w.abort = true → (enqueue_foreign_splice w ts).state = w) ∧
     (w.abort = false →
       (enqueue_foreign_splice w ts).state.publicQueue = w.publicQueue ++ ts ∧
       (enqueue_foreign_splice w ts).state.privateQueue = w.privateQueue)) := by
  refine ⟨?_, ?_, ?_⟩
  · cases h : w.atomicAbort <;> simp [enqueue_local, h]
  · cases h : w.abort <;>
      simp [enqueue_foreign, h, ensure_worker_active_publicQueue,
        ensure_worker_active_privateQueue]
  · cases h : w.abort <;>
      simp [enqueue_foreign_splice, h, ensure_worker_active_publicQueue,
        ensure_worker_active_privateQueue]

/-- Witness for C4 at a concrete worker. -/
theorem enqueue_error_iff_witness :
    (enqueue_local (worker_mk Nat) 7).state.privateQueue = [7] :=
  ((enqueue_error_iff (worker_mk Nat) 7 [8, 9]).1.2.2 rfl).1

/-- C8: while the worker is running (`¬idle`), an `enqueue_foreign` call
releases the semaphore exactly when the push transitioned the public queue
from empty to non-empty, and the resulting public queue is non-empty; the
spawn branch (worker idle) spawns a thread and never releases the
semaphore. -/
theorem enqueue_foreign_wake_economy {τ : Type} (w : WorkerState τ) (t : τ)
    (h : w.abort = false) :
    (w.idle = false →
      (enqueue_foreign w t).state.semReleases =
        w.semReleases + (if w.publicQueue.isEmpty then 1 else 0) ∧
      (enqueue_foreign w t).state.publicQueue ≠ []) ∧
    (w.idle = true →
      (enqueue_foreign w t).state.semReleases = w.semReleases ∧
      (enqueue_foreign w t).state.spawnCount = w.spawnCount + 1) := by
  cases hidle : w.idle <;>
    cases hemp : w.publicQueue.isEmpty <;>
      simp [enqueue_foreign, h, ensure_worker_active, hidle, hemp]

/-- Witness for C8 at a concrete running worker with an empty public
queue. -/
theorem enqueue_foreign_wake_economy_witness :
    (enqueue_foreign sampleRunningWorker 5).state.semReleases =
      0 + (if (([] : List Nat)).isEmpty then 1 else 0) :=
  ((enqueue_foreign_wake_economy sampleRunningWorker 5 rfl).1 rfl).1

/-- C9: pool `shutdown` is idempotent: a second call returns the state of
the first call untouched and interrupts nothing; `shutdown_requested` is true
from the first call onward; the first call runs `worker.shutdown` on every
worker in index order; a call on an already-aborted pool changes nothing and
visits no worker. -/
theorem pool_shutdown_idempotent {τ : Type} (p : PoolState τ) :
    pool_shutdown (pool_shutdown p).1 = ((pool_shutdown p).1, []) ∧
    shutdown_requested (pool_shutdown p).1 = true ∧
    (p.abort = false →
      (pool_shutdown p).1.workers = p.workers.map fun w => (worker_shutdown w).1) ∧
    (p.abort = false →
      (pool_shutdown p).2 = p.workers.map fun w => (worker_shutdown w).2) ∧
    (p.abort = true → pool_shutdown p = (p, [])) := by
  obtain ⟨ws, iset, rr, ab⟩ := p
  cases ab <;> simp [pool_shutdown, shutdown_requested, List.map_map, Function.comp]

/-- Witness for C9 at a concrete two-worker pool. -/
theorem pool_shutdown_idempotent_witness :
    pool_shutdown (pool_shutdown samplePool2).1 = ((pool_shutdown samplePool2).1, []) :=
  (pool_shutdown_idempotent samplePool2).1

/-- Every index in the circular scan order is a valid slot index. -/
theorem scanOrder_mem (start size x : Nat) (hx : x ∈ scanOrder start size) : x < size := by
  simp only [scanOrder, List.mem_map, List.mem_range] at hx
  obtain ⟨i, hi, rfl⟩ := hx
  exact Nat.mod_lt _ (Nat.lt_of_le_of_lt (Nat.zero_le i) hi)

/-- Indices collected by the `find_idle_workers` scan loop come from the
buffer it started with or from the scanned indices, and never equal the
caller. -/
theorem fiwManyLoop_mem (caller maxW : Nat) :
    ∀ (idxs : List Nat) (s : IdleWorkerSet) (count : Nat) (acc : List Nat) (x : Nat),
      x ∈ (fiwManyLoop caller maxW idxs s count acc).1 →
      x ∈ acc ∨ (x ∈ idxs ∧ x ≠ caller) := by
  intro idxs
  induction idxs with
  | nil =>
    intro s count acc x hx
    exact Or.inl (by simpa [fiwManyLoop] using hx)
  | cons idx rest ih =>
    intro s count acc x hx
    simp only [fiwManyLoop] at hx
    by_cases hcount : count < maxW
    · simp only [if_pos hcount] at hx
      by_cases hidx : idx = caller
      · simp only [if_pos hidx] at hx
        rcases ih s count acc x hx with h | ⟨h1, h2⟩
        · exact Or.inl h
        · exact Or.inr ⟨List.mem_cons_of_mem _ h1, h2⟩
      · simp only [if_neg hidx] at hx
        rcases htaf : try_acquire_flag s idx with ⟨b, s'⟩
        rw [htaf] at hx
        cases b
        · rcases ih s' count acc x hx with h | ⟨h1, h2⟩
          · exact Or.inl h
          · exact Or.inr ⟨List.mem_cons_of_mem _ h1, h2⟩
        · rcases ih s' (count + 1) (acc ++ [idx]) x hx with h | ⟨h1, h2⟩
          · rcases List.mem_append.1 h with h | h
            · exact Or.inl h
            · have hxi : x = idx := by simpa using h
              subst hxi
              exact Or.inr ⟨List.mem_cons_self _ _, hidx⟩
          · exact Or.inr ⟨List.mem_cons_of_mem _ h1, h2⟩
    · simp only [if_neg hcount] at hx
      exact Or.inl hx

/-- Every index returned by `find_idle_workers` is a valid slot index
different from the caller's. -/
theorem find_idle_workers_mem (s : IdleWorkerSet) (caller maxCount x : Nat)
    (hx : x ∈ (find_idle_workers s caller maxCount).1) :
    x < s.idleFlags.length ∧ x ≠ caller := by
  simp only [find_idle_workers] at hx
  split at hx
  · simp at hx
  · rcases fiwManyLoop_mem caller _ _ _ _ _ _ hx with h | ⟨h1, h2⟩
    · simp at h
    · exact ⟨scanOrder_mem _ _ _ h1, h2⟩

/-- The donation loop donates to exactly the acquired peers, in order. -/
theorem donateLoop_peers {τ : Type} :
    ∀ (peers : List Nat) (priv : List τ) (b e : Nat),
      (donateLoop priv peers b e).2.map Prod.fst = peers := by
  intro peers
  induction peers with
  | nil => intro priv b e; rfl
  | cons j rest ih =>
    intro priv b e
    simp only [donateLoop, List.map_cons, List.cons.injEq, true_and]
    exact ih _ _ _

/-- C10: the assertion in `worker_at` accepts the out-of-bounds index
`pool_size` (it checks `index <= size`, and `pool_size < pool_size` is
false); nevertheless every index `find_idle_workers` produces — and hence
every index `balance_work` passes to `worker_at` — is strictly below
`pool_size` and different from the calling worker's index. -/
theorem worker_at_bounds {τ : Type} (s : IdleWorkerSet) (caller maxCount : Nat)
    (priv : List τ) (poolSize index : Nat) (hsize : s.idleFlags.length = poolSize) :
    (worker_at_assert_check poolSize poolSize = true ∧ ¬ poolSize < poolSize) ∧
    (∀ x ∈ (find_idle_workers s caller maxCount).1, x < poolSize ∧ x ≠ caller) ∧
    (∀ d ∈ (balance_work priv s poolSize index).2.1, d.1 < poolSize ∧ d.1 ≠ index) := by
  refine ⟨⟨by simp [worker_at_assert_check], Nat.lt_irrefl _⟩, ?_, ?_⟩
  · intro x hx
    have h := find_idle_workers_mem s caller maxCount x hx
    exact ⟨hsize ▸ h.1, h.2⟩
  · intro d hd
    simp only [balance_work] at hd
    split at hd
    · simp at hd
    · split at hd
      · simp at hd
      · split at hd
        · simp at hd
        · have hmem := List.mem_map_of_mem Prod.fst hd
          rw [donateLoop_peers] at hmem
          have h := find_idle_workers_mem s index _ d.1 hmem
          exact ⟨hsize ▸ h.1, h.2⟩

/-- Witness for C10 on a concrete idle set and queue. -/
theorem worker_at_bounds_witness :
    worker_at_assert_check 2 2 = true :=
  (worker_at_bounds sampleIdleSet2 0 1 ([0, 1, 2] : List Nat) 2 0 rfl).1.1

/-- Characterisation of `try_acquire_flag` in the sequential model: it succeeds exactly when the
slot is `idle`, in which case it flips the slot to `active` and decrements
the counter; otherwise it changes nothing. -/
theorem try_acquire_flag_eq (s : IdleWorkerSet) (i : Nat) :
    try_acquire_flag s i =
      if s.idleFlags.getD i WStatus.active = WStatus.idle then
        (true, { s with approxSize := s.approxSize - 1,
                        idleFlags := s.idleFlags.set i WStatus.active })
      else (false, s) := by
  cases h : s.idleFlags.getD i WStatus.active with
  | active =>
    have h' := h
    simp only [List.getD_eq_getElem?_getD] at h'
    simp [try_acquire_flag, h, h']
  | idle =>
    have h' := h
    simp only [List.getD_eq_getElem?_getD] at h'
    simp [try_acquire_flag, h, h']

/-- The scan loop of `find_idle_worker` returns the first scanned index that
is not the caller's and whose flag is `idle`. -/
theorem fiwOneLoop_head (caller : Option Nat) :
    ∀ (idxs : List Nat) (s : IdleWorkerSet),
      (fiwOneLoop caller idxs s).1 =
        (idxs.filter fun j =>
          (caller != some j) && (s.idleFlags.getD j WStatus.active == WStatus.idle)).head? := by
  intro idxs
  induction idxs with
  | nil => intro s; rfl
  | cons idx rest ih =>
    intro s
    simp only [fiwOneLoop]
    by_cases hc : caller = some idx
    · rw [if_pos hc, ih, List.filter_cons]
      have hp : ((caller != some idx) &&
          (s.idleFlags.getD idx WStatus.active == WStatus.idle)) = false := by
        simp [hc]
      rw [hp]
      simp
    · rw [if_neg hc, try_acquire_flag_eq]
      by_cases hflag : s.idleFlags.getD idx WStatus.active = WStatus.idle
      · rw [if_pos hflag, List.filter_cons]
        have hp : ((caller != some idx) &&
            (s.idleFlags.getD idx WStatus.active == WStatus.idle)) = true := by
          have hflag' := hflag
          simp only [List.getD_eq_getElem?_getD] at hflag'
          simp [hc, hflag']
        rw [hp]
        rfl
      · rw [if_neg hflag, List.filter_cons]
        have hp : ((caller != some idx) &&
            (s.idleFlags.getD idx WStatus.active == WStatus.idle)) = false := by
          have hflag' := hflag
          simp only [List.getD_eq_getElem?_getD] at hflag'
          simp [hc, hflag']
        rw [hp]
        exact ih s

/-- C5: `find_idle_worker` returns the sentinel whenever the approximate
counter is ≤ 0 on entry (leaving the set untouched); otherwise it scans
circularly from the caller's index (worker caller) or from the hashed thread
id modulo the pool size (external caller), skips the caller's slot, and
returns the first index whose `try_acquire_flag` succeeds — the sentinel if
none does within one full scan. -/
theorem find_idle_worker_spec (s : IdleWorkerSet) (caller : Option Nat) (hashedId : Nat) :
    (s.approxSize ≤ 0 → find_idle_worker s caller hashedId = (none, s)) ∧
    (0 < s.approxSize →
      (find_idle_worker s caller hashedId).1 =
        ((scanOrder
            (match caller with
             | some c => c
             | none => hashedId % s.idleFlags.length)
            s.idleFlags.length).filter fun j =>
          (caller != some j) && (s.idleFlags.getD j WStatus.active == WStatus.idle)).head?) := by
  constructor
  · intro h
    simp [find_idle_worker, h]
  · intro h
    have hne : ¬ s.approxSize ≤ 0 := by omega
    simp only [find_idle_worker, if_neg hne]
    exact fiwOneLoop_head caller _ s

/-- Witness for C5: a worker-indexed caller on a two-slot set with one idle
peer finds that peer. -/
theorem find_idle_worker_spec_witness :
    (find_idle_worker { approxSize := 2, idleFlags := [WStatus.idle, WStatus.idle] }
        (some 0) 0).1 =
      (((scanOrder 0 2).filter fun j =>
        ((some 0 : Option Nat) != some j) &&
          (([WStatus.idle, WStatus.idle].getD j WStatus.active == WStatus.idle))).head?) :=
  (find_idle_worker_spec
    { approxSize := 2, idleFlags := [WStatus.idle, WStatus.idle] } (some 0) 0).2 (by decide)

/-- Two idle-worker sets with equal fields are equal. -/
theorem idleWorkerSet_eq (a b : IdleWorkerSet) (h1 : a.approxSize = b.approxSize)
    (h2 : a.idleFlags = b.idleFlags) : a = b := by
  cases a
  cases b
  congr 1

/-- Unfolding of `countIdle` over a cons. -/
theorem countIdle_cons (f : WStatus) (l : List WStatus) :
    countIdle (f :: l) = (if f = WStatus.idle then 1 else 0) + countIdle l := by
  by_cases h : f = WStatus.idle <;> simp [countIdle, List.filter_cons, h, Nat.add_comm]

/-- Value of `countIdle` on a `replicate` of idle slots. -/
theorem countIdle_replicate (n : Nat) : countIdle (List.replicate n WStatus.idle) = n := by
  induction n with
  | zero => rfl
  | succ m ih => simp [List.replicate_succ, countIdle_cons, ih, Nat.add_comm]

/-- Writing one slot changes the idle count by the difference between the
new and the old value of that slot. -/
theorem countIdle_set :
    ∀ (flags : List WStatus) (i : Nat) (v : WStatus), i < flags.length →
      countIdle (flags.set i v) +
        (if flags.getD i WStatus.active = WStatus.idle then 1 else 0) =
      countIdle flags + (if v = WStatus.idle then 1 else 0) := by
  intro flags
  induction flags with
  | nil => intro i v h; simp at h
  | cons f rest ih =>
    intro i v h
    cases i with
    | zero =>
      simp only [List.set_cons_zero, List.getD_cons_zero, countIdle_cons]
      by_cases hf : f = WStatus.idle <;> by_cases hv : v = WStatus.idle <;>
        simp [hf, hv] <;> omega
    | succ m =>
      simp only [List.set_cons_succ, List.getD_cons_succ, countIdle_cons]
      have hrec := ih m v (by simpa using h)
      simp only [List.getD_eq_getElem?_getD] at hrec
      by_cases hf : f = WStatus.idle <;> simp [hf] <;> omega

/-- Rewriting `set_idle` as a record update. -/
theorem set_idle_eq (s : IdleWorkerSet) (m : Nat) :
    set_idle s m =
      { approxSize := s.approxSize +
          (if s.idleFlags.getD m WStatus.active = WStatus.idle then 0 else 1),
        idleFlags := s.idleFlags.set m WStatus.idle } := by
  cases h : s.idleFlags[m]?.getD WStatus.active <;>
    simp [set_idle, h, List.getD_eq_getElem?_getD]

/-- Rewriting `set_active` as a record update. -/
theorem set_active_eq (s : IdleWorkerSet) (m : Nat) :
    set_active s m =
      { approxSize := s.approxSize -
          (if s.idleFlags.getD m WStatus.active = WStatus.idle then 1 else 0),
        idleFlags := s.idleFlags.set m WStatus.active } := by
  cases h : s.idleFlags[m]?.getD WStatus.active <;>
    simp [set_active, h, List.getD_eq_getElem?_getD]

/-- Preservation: `set_idle` preserves the counter invariant for an in-range slot. -/
theorem idleInv_set_idle (s : IdleWorkerSet) (i : Nat) (hi : i < s.idleFlags.length)
    (hinv : IdleInv s) : IdleInv (set_idle s i) := by
  unfold IdleInv at hinv ⊢
  rw [set_idle_eq]
  have hcount := countIdle_set s.idleFlags i WStatus.idle hi
  rw [if_pos rfl] at hcount
  by_cases h : s.idleFlags.getD i WStatus.active = WStatus.idle
  · rw [if_pos h] at hcount
    show s.approxSize + (if s.idleFlags.getD i WStatus.active = WStatus.idle then 0 else 1) =
      ((countIdle (s.idleFlags.set i WStatus.idle) : Nat) : Int)
    rw [if_pos h]
    omega
  · rw [if_neg h] at hcount
    show s.approxSize + (if s.idleFlags.getD i WStatus.active = WStatus.idle then 0 else 1) =
      ((countIdle (s.idleFlags.set i WStatus.idle) : Nat) : Int)
    rw [if_neg h]
    omega

/-- Preservation: `set_active` preserves the counter invariant for an in-range slot. -/
theorem idleInv_set_active (s : IdleWorkerSet) (i : Nat) (hi : i < s.idleFlags.length)
    (hinv : IdleInv s) : IdleInv (set_active s i) := by
  unfold IdleInv at hinv ⊢
  rw [set_active_eq]
  have hcount := countIdle_set s.idleFlags i WStatus.active hi
  rw [if_neg (by decide : ¬ WStatus.active = WStatus.idle)] at hcount
  by_cases h : s.idleFlags.getD i WStatus.active = WStatus.idle
  · rw [if_pos h] at hcount
    show s.approxSize - (if s.idleFlags.getD i WStatus.active = WStatus.idle then 1 else 0) =
      ((countIdle (s.idleFlags.set i WStatus.active) : Nat) : Int)
    rw [if_pos h]
    omega
  · rw [if_neg h] at hcount
    show s.approxSize - (if s.idleFlags.getD i WStatus.active = WStatus.idle then 1 else 0) =
      ((countIdle (s.idleFlags.set i WStatus.active) : Nat) : Int)
    rw [if_neg h]
    omega

/-- Preservation: `try_acquire_flag` preserves the counter invariant for an in-range
slot. -/
theorem idleInv_try_acquire (s : IdleWorkerSet) (i : Nat) (hi : i < s.idleFlags.length)
    (hinv : IdleInv s) : IdleInv (try_acquire_flag s i).2 := by
  rw [try_acquire_flag_eq]
  by_cases h : s.idleFlags.getD i WStatus.active = WStatus.idle
  · rw [if_pos h]
    unfold IdleInv at hinv ⊢
    have hcount := countIdle_set s.idleFlags i WStatus.active hi
    rw [if_pos h, if_neg (by decide : ¬ WStatus.active = WStatus.idle)] at hcount
    show s.approxSize - 1 = ((countIdle (s.idleFlags.set i WStatus.active) : Nat) : Int)
    omega
  · rw [if_neg h]
    exact hinv

/-- The counter delta of `try_acquire_flag`. -/
theorem try_acquire_approx (s : IdleWorkerSet) (i : Nat) :
    (try_acquire_flag s i).2.approxSize =
      s.approxSize - (if s.idleFlags.getD i WStatus.active = WStatus.idle then 1 else 0) := by
  rw [try_acquire_flag_eq]
  by_cases h : s.idleFlags.getD i WStatus.active = WStatus.idle
  · rw [if_pos h, if_pos h]
  · rw [if_neg h, if_neg h]
    simp

/-- All idle-worker-set operations preserve the number of slots. -/
theorem applyIdleOp_length (s : IdleWorkerSet) (op : IdleOp) :
    (applyIdleOp s op).idleFlags.length = s.idleFlags.length := by
  cases op with
  | opSetIdle i => simp [applyIdleOp, set_idle_eq]
  | opSetActive i => simp [applyIdleOp, set_active_eq]
  | opTryAcquire i =>
    simp only [applyIdleOp]
    rw [try_acquire_flag_eq]
    by_cases h : s.idleFlags.getD i WStatus.active = WStatus.idle
    · rw [if_pos h]
      simp
    · rw [if_neg h]

/-- Any sequence of in-range idle-worker-set operations preserves the
counter invariant. -/
theorem idleInv_applyIdleOps :
    ∀ (ops : List IdleOp) (s : IdleWorkerSet), IdleInv s →
      (∀ op ∈ ops, IdleOp.index op < s.idleFlags.length) →
      IdleInv (applyIdleOps s ops) := by
  intro ops
  induction ops with
  | nil => intro s hinv _; exact hinv
  | cons op rest ih =>
    intro s hinv hops
    simp only [applyIdleOps]
    apply ih
    · cases op with
      | opSetIdle i => exact idleInv_set_idle s i (hops _ (List.mem_cons_self _ _)) hinv
      | opSetActive i => exact idleInv_set_active s i (hops _ (List.mem_cons_self _ _)) hinv
      | opTryAcquire i => exact idleInv_try_acquire s i (hops _ (List.mem_cons_self _ _)) hinv
    · intro op2 h2
      rw [applyIdleOp_length]
      exact hops op2 (List.mem_cons_of_mem _ h2)

/-- Reading just past a block of idle slots. -/
theorem replicate_idle_getD (k : Nat) (l : List WStatus) :
    (List.replicate k WStatus.idle ++ l).getD k WStatus.active = l.getD 0 WStatus.active := by
  induction k with
  | zero => simp
  | succ m ih => simpa [List.replicate_succ] using ih

/-- Writing just past a block of idle slots. -/
theorem replicate_idle_set (k : Nat) (l : List WStatus) (v : WStatus) :
    (List.replicate k WStatus.idle ++ l).set k v =
      List.replicate k WStatus.idle ++ l.set 0 v := by
  induction k with
  | zero => simp
  | succ m ih => simp [List.replicate_succ, ih]

/-- After `set_idle` on the first `k` slots, the constructor's partial state
has the first `k` slots idle and the counter at `k`. -/
theorem pool_mk_idle_set_fold (n : Nat) :
    ∀ k, k ≤ n →
      (List.range k).foldl (fun s i => set_idle s i) (idle_worker_set_mk n) =
      { approxSize := (k : Int),
        idleFlags := List.replicate k WStatus.idle ++
          List.replicate (n - k) WStatus.active } := by
  intro k
  induction k with
  | zero =>
    intro _
    simp [idle_worker_set_mk]
  | succ m ih =>
    intro h
    rw [List.range_succ, List.foldl_append, ih (by omega)]
    simp only [List.foldl_cons, List.foldl_nil]
    obtain ⟨p, hp⟩ : ∃ p, n - m = p + 1 := ⟨n - m - 1, by omega⟩
    have hp2 : n - (m + 1) = p := by omega
    rw [hp, hp2, List.replicate_succ]
    rw [set_idle_eq]
    have hged : (List.replicate m WStatus.idle ++
        WStatus.active :: List.replicate p WStatus.active).getD m WStatus.active =
        WStatus.active := by
      rw [replicate_idle_getD]
      simp
    have hset := replicate_idle_set m
      (WStatus.active :: List.replicate p WStatus.active) WStatus.idle
    refine idleWorkerSet_eq _ _ ?_ ?_
    · show (m : Int) + (if (List.replicate m WStatus.idle ++
          WStatus.active :: List.replicate p WStatus.active).getD m WStatus.active =
          WStatus.idle then 0 else 1) = ((m + 1 : Nat) : Int)
      rw [hged]
      simp
    · show (List.replicate m WStatus.idle ++
          WStatus.active :: List.replicate p WStatus.active).set m WStatus.idle =
        List.replicate (m + 1) WStatus.idle ++ List.replicate p WStatus.active
      rw [hset]
      simp [List.replicate_succ', List.append_assoc]

/-- The pool constructor leaves every slot idle with the counter at the pool
size. -/
theorem pool_mk_idle_set_spec (n : Nat) :
    (pool_mk_idle_set n).idleFlags = List.replicate n WStatus.idle ∧
    (pool_mk_idle_set n).approxSize = (n : Int) := by
  unfold pool_mk_idle_set
  rw [pool_mk_idle_set_fold n n le_rfl]
  simp

/-- C6: in the sequential model the idle-worker set's counter always equals
the number of idle slots: each of `set_idle`, `set_active` and
`try_acquire_flag` preserves the invariant and moves the counter by exactly
one precisely when the exchange changed the slot's value, any sequence of
in-range operations preserves the invariant, and after pool construction
every slot is idle with the counter equal to the pool size. -/
theorem idle_set_counter_invariant (s : IdleWorkerSet) (i : Nat) (ops : List IdleOp)
    (n : Nat) (hi : i < s.idleFlags.length) (hinv : IdleInv s)
    (hops : ∀ op ∈ ops, IdleOp.index op < s.idleFlags.length) :
    (IdleInv (set_idle s i) ∧ IdleInv (set_active s i) ∧
      IdleInv (try_acquire_flag s i).2) ∧
    ((set_idle s i).approxSize =
      s.approxSize + (if s.idleFlags.getD i WStatus.active = WStatus.idle then 0 else 1)) ∧
    ((set_active s i).approxSize =
      s.approxSize - (if s.idleFlags.getD i WStatus.active = WStatus.idle then 1 else 0)) ∧
    ((try_acquire_flag s i).2.approxSize =
      s.approxSize - (if s.idleFlags.getD i WStatus.active = WStatus.idle then 1 else 0)) ∧
    IdleInv (applyIdleOps s ops) ∧
    ((pool_mk_idle_set n).idleFlags = List.replicate n WStatus.idle ∧
     (pool_mk_idle_set n).approxSize = (n : Int) ∧ IdleInv (pool_mk_idle_set n)) := by
  refine ⟨⟨idleInv_set_idle s i hi hinv, idleInv_set_active s i hi hinv,
    idleInv_try_acquire s i hi hinv⟩, ?_, ?_, try_acquire_approx s i,
    idleInv_applyIdleOps ops s hinv hops, (pool_mk_idle_set_spec n).1,
    (pool_mk_idle_set_spec n).2, ?_⟩
  · rw [set_idle_eq]
  · rw [set_active_eq]
  · unfold IdleInv
    rw [(pool_mk_idle_set_spec n).1, (pool_mk_idle_set_spec n).2, countIdle_replicate]

/-- Witness for C6 on a two-slot set with one idle slot. -/
theorem idle_set_counter_invariant_witness :
    IdleInv (set_idle { approxSize := 1,
                        idleFlags := [WStatus.idle, WStatus.active] } 1) :=
  (idle_set_counter_invariant
    { approxSize := 1, idleFlags := [WStatus.idle, WStatus.active] } 1
    [IdleOp.opTryAcquire 0] 3 (by decide) (by unfold IdleInv; decide)
    (by intro op hop; simp at hop; subst hop; decide)).1.1

/-- If the park loop breaks with an event found, the shared state it
observed under the lock had a queued task or the abort flag set. -/
theorem wftLoop_found {τ : Type} :
    ∀ (events : List (WFTEvent τ)) (sh : WShared τ),
      wftLoop events = some (some sh) →
      sh.publicQueue ≠ [] ∨ sh.abort = true := by
  intro events
  induction events with
  | nil => intro sh h; simp [wftLoop] at h
  | cons e rest ih =>
    intro sh h
    simp only [wftLoop] at h
    by_cases h1 : e.semAcquired = false
    · rw [if_pos h1] at h
      by_cases h2 : e.beforeDeadline = true
      · rw [if_pos h2] at h
        exact ih sh h
      · rw [if_neg h2] at h
        simp at h
    · rw [if_neg h1] at h
      by_cases h3 : e.tfa = false
      · rw [if_pos h3] at h
        exact ih sh h
      · rw [if_neg h3] at h
        by_cases h4 : (e.lockedShared.publicQueue.isEmpty && !e.lockedShared.abort) = true
        · rw [if_pos h4] at h
          exact ih sh h
        · rw [if_neg h4] at h
          simp only [Option.some.injEq] at h
          subst h
          by_cases h5 : e.lockedShared.publicQueue.isEmpty = true
          · right
            by_cases h6 : e.lockedShared.abort = true
            · exact h6
            · exfalso
              apply h4
              simp [h5, h6]
          · left
            intro hnil
            apply h5
            rw [hnil]
            rfl

/-- C7: whenever `wait_for_task` returns true the caller holds the mutex
and at that moment the public queue is non-empty or abort is set; whenever
it returns false the mutex is released and the worker's idle flag has been
set. -/
theorem wait_for_task_postcondition {τ : Type} (s : WShared τ)
    (events : List (WFTEvent τ)) (exitObs : WShared τ) (b lockHeld : Bool)
    (sh : WShared τ)
    (h : wait_for_task s events exitObs = some (b, lockHeld, sh)) :
    (b = true → lockHeld = true ∧ (sh.publicQueue ≠ [] ∨ sh.abort = true)) ∧
    (b = false → lockHeld = false ∧ sh.idle = true) := by
  simp only [wait_for_task] at h
  by_cases h0 : (!s.publicQueue.isEmpty || s.abort) = true
  · rw [if_pos h0] at h
    simp only [Option.some.injEq, Prod.mk.injEq] at h
    obtain ⟨hb, hl, hs⟩ := h
    subst hb
    subst hl
    subst hs
    refine ⟨fun _ => ⟨rfl, ?_⟩, fun hfalse => by simp at hfalse⟩
    rcases Bool.or_eq_true _ _ ▸ h0 with h | h
    · left
      intro hnil
      rw [hnil] at h
      simp at h
    · right
      exact h
  · rw [if_neg h0] at h
    rcases hloop : wftLoop events with _ | res
    · rw [hloop] at h
      simp at h
    · rw [hloop] at h
      cases res with
      | none =>
        simp only [Option.isSome_none, Bool.not_false, Bool.true_or, if_pos] at h
        simp only [Option.some.injEq, Prod.mk.injEq] at h
        obtain ⟨hb, hl, hs⟩ := h
        subst hb
        subst hl
        subst hs
        exact ⟨fun htrue => by simp at htrue, fun _ => ⟨rfl, rfl⟩⟩
      | some shL =>
        simp only [Option.isSome_some, Bool.not_true, Bool.false_or] at h
        by_cases habort : shL.abort = true
        · rw [if_pos habort] at h
          simp only [Option.some.injEq, Prod.mk.injEq] at h
          obtain ⟨hb, hl, hs⟩ := h
          subst hb
          subst hl
          subst hs
          exact ⟨fun htrue => by simp at htrue, fun _ => ⟨rfl, rfl⟩⟩
        · rw [if_neg habort] at h
          simp only [Option.some.injEq, Prod.mk.injEq] at h
          obtain ⟨hb, hl, hs⟩ := h
          subst hb
          subst hl
          subst hs
          refine ⟨fun _ => ⟨rfl, ?_⟩, fun hfalse => by simp at hfalse⟩
          rcases wftLoop_found events shL hloop with hne | hab
          · exact Or.inl hne
          · exact Or.inr hab

/-- Witness for C7: a genuine wake with one queued task returns true with
the queue non-empty. -/
theorem wait_for_task_postcondition_witness :
    sampleLockedShared.publicQueue ≠ [] ∨ sampleLockedShared.abort = true :=
  ((wait_for_task_postcondition sampleShared [sampleEvent] sampleShared true true
    sampleLockedShared rfl).1 rfl).2

/-- The `find_idle_workers` scan loop never grows the buffer beyond the
waiter cap. -/
theorem fiwManyLoop_length (caller maxW : Nat) :
    ∀ (idxs : List Nat) (s : IdleWorkerSet) (count : Nat) (acc : List Nat),
      acc.length = count → count ≤ maxW →
      (fiwManyLoop caller maxW idxs s count acc).1.length ≤ maxW := by
  intro idxs
  induction idxs with
  | nil =>
    intro s count acc hlen hle
    simpa [fiwManyLoop, hlen] using hle
  | cons idx rest ih =>
    intro s count acc hlen hle
    simp only [fiwManyLoop]
    by_cases hcount : count < maxW
    · rw [if_pos hcount]
      by_cases hidx : idx = caller
      · rw [if_pos hidx]
        exact ih s count acc hlen hle
      · rw [if_neg hidx]
        rcases htaf : try_acquire_flag s idx with ⟨b, s'⟩
        cases b
        · exact ih s' count acc hlen hle
        · exact ih s' (count + 1) (acc ++ [idx]) (by simp [hlen]) (by omega)
    · rw [if_neg hcount]
      simpa [hlen] using hle

/-- Bound: `find_idle_workers` acquires at most `max_count` peers. -/
theorem find_idle_workers_length (s : IdleWorkerSet) (caller maxCount : Nat) :
    (find_idle_workers s caller maxCount).1.length ≤ maxCount := by
  simp only [find_idle_workers]
  split
  · simp
  · exact le_trans
      (fiwManyLoop_length caller (min s.approxSize.toNat maxCount)
        (scanOrder caller s.idleFlags.length) s 0 [] rfl (Nat.zero_le _))
      (Nat.min_le_right _ _)

/-- The donation loop: when the private queue holds exactly
`base · (peers + 1) + extra` tasks with `extra ≤ peers`, the donor is left
with `base` tasks and the donated batch sizes are `extra` copies of
`base + 1` followed by `peers − extra` copies of `base`. -/
theorem donateLoop_spec {τ : Type} :
    ∀ (peers : List Nat) (priv : List τ) (base extra : Nat),
      extra ≤ peers.length →
      priv.length = base * (peers.length + 1) + extra →
      (donateLoop priv peers base extra).1.length = base ∧
      ((donateLoop priv peers base extra).2.map fun d => d.2.length) =
        List.replicate extra (base + 1) ++ List.replicate (peers.length - extra) base := by
  intro peers
  induction peers with
  | nil =>
    intro priv base extra hle hlen
    have hex : extra = 0 := by simpa using hle
    subst hex
    refine ⟨by simpa using hlen, by simp [donateLoop]⟩
  | cons j rest ih =>
    intro priv base extra hle hlen
    simp only [List.length_cons] at hlen hle
    rw [Nat.mul_succ] at hlen
    rcases Nat.eq_zero_or_pos extra with hex | hex
    · subst hex
      have hpl : base ≤ priv.length := by omega
      have hdrop : (priv.drop base).length = base * (rest.length + 1) + 0 := by
        simp [List.length_drop]
        omega
      have hih := ih (priv.drop base) base 0 (Nat.zero_le _) hdrop
      constructor
      · simpa [donateLoop] using hih.1
      · simp [donateLoop, hih.2, List.length_take, Nat.min_eq_left hpl,
          List.replicate_succ]
    · obtain ⟨e, rfl⟩ : ∃ e, extra = e + 1 := ⟨extra - 1, by omega⟩
      have hpl : base + 1 ≤ priv.length := by omega
      have hdrop : (priv.drop (base + 1)).length = base * (rest.length + 1) + e := by
        simp [List.length_drop]
        omega
      have hle2 : e ≤ rest.length := by omega
      have hih := ih (priv.drop (base + 1)) base e hle2 hdrop
      constructor
      · simpa [donateLoop] using hih.1
      · simp [donateLoop, hih.2, List.length_take, Nat.min_eq_left hpl,
          List.replicate_succ, Nat.succ_sub_succ]

/-- Filtering on a property of `f a` matches filtering the mapped list. -/
theorem filter_length_by_map {α : Type} (l : List α) (f : α → Nat) (m : Nat) :
    (l.filter fun a => f a = m).length = ((l.map f).filter fun n => n = m).length := by
  induction l with
  | nil => rfl
  | cons a rest ih =>
    simp only [List.filter_cons, List.map_cons]
    by_cases h : f a = m <;> simp [h, ih]

/-- C1: whenever `balance_work` performs at least one donation
(`K = |donations| ≥ 1` acquired peers), every peer receives
`⌊S/(K+1)⌋` or `⌈S/(K+1)⌉` tasks (`S` the private queue size), exactly
`S mod (K+1)` peers receive the larger share, and the donor keeps exactly
`⌊S/(K+1)⌋ ≥ 1` tasks. -/
theorem balance_work_fairness {τ : Type} (priv : List τ) (iset : IdleWorkerSet)
    (poolSize index : Nat) (priv' : List τ) (ds : List (Nat × List τ))
    (iset' : IdleWorkerSet)
    (heq : balance_work priv iset poolSize index = (priv', ds, iset'))
    (hK : 1 ≤ ds.length) :
    (∀ d ∈ ds, d.2.length = priv.length / (ds.length + 1) ∨
       d.2.length = priv.length / (ds.length + 1) + 1) ∧
    (ds.filter fun d => d.2.length = priv.length / (ds.length + 1) + 1).length =
      priv.length % (ds.length + 1) ∧
    priv'.length = priv.length / (ds.length + 1) ∧
    1 ≤ priv'.length := by
  simp only [balance_work] at heq
  by_cases h2 : priv.length < 2
  · rw [if_pos h2] at heq
    simp only [Prod.mk.injEq] at heq
    obtain ⟨-, hd, -⟩ := heq
    subst hd
    simp at hK
  · rw [if_neg h2] at heq
    by_cases h3 : min (poolSize - 1) (priv.length - 1) = 0
    · rw [if_pos h3] at heq
      simp only [Prod.mk.injEq] at heq
      obtain ⟨-, hd, -⟩ := heq
      subst hd
      simp at hK
    · rw [if_neg h3] at heq
      by_cases h4 : (find_idle_workers iset index
          (min (poolSize - 1) (priv.length - 1))).1.length = 0
      · rw [if_pos h4] at heq
        simp only [Prod.mk.injEq] at heq
        obtain ⟨-, hd, -⟩ := heq
        subst hd
        simp at hK
      · rw [if_neg h4] at heq
        simp only [Prod.mk.injEq] at heq
        obtain ⟨hpriv, hds, hiset⟩ := heq
        subst hpriv
        subst hds
        subst hiset
        have hpeers := donateLoop_peers
          (find_idle_workers iset index (min (poolSize - 1) (priv.length - 1))).1 priv
          (priv.length /
            ((find_idle_workers iset index (min (poolSize - 1) (priv.length - 1))).1.length + 1))
          (priv.length - priv.length /
            ((find_idle_workers iset index (min (poolSize - 1) (priv.length - 1))).1.length + 1) *
            ((find_idle_workers iset index (min (poolSize - 1) (priv.length - 1))).1.length + 1))
        have hKeq : (donateLoop priv
            (find_idle_workers iset index (min (poolSize - 1) (priv.length - 1))).1
            (priv.length /
              ((find_idle_workers iset index (min (poolSize - 1) (priv.length - 1))).1.length + 1))
            (priv.length - priv.length /
              ((find_idle_workers iset index (min (poolSize - 1) (priv.length - 1))).1.length + 1) *
              ((find_idle_workers iset index
                (min (poolSize - 1) (priv.length - 1))).1.length + 1))).2.length =
            (find_idle_workers iset index (min (poolSize - 1) (priv.length - 1))).1.length := by
          have hlm := congrArg List.length hpeers
          simpa using hlm
        rw [hKeq]
        have hfrlen := find_idle_workers_length iset index (min (poolSize - 1) (priv.length - 1))
        have hfrle : (find_idle_workers iset index
            (min (poolSize - 1) (priv.length - 1))).1.length ≤ priv.length - 1 :=
          le_trans hfrlen (Nat.min_le_right _ _)
        have hdm := Nat.div_add_mod' priv.length
          ((find_idle_workers iset index (min (poolSize - 1) (priv.length - 1))).1.length + 1)
        have hmodlt : priv.length %
            ((find_idle_workers iset index (min (poolSize - 1) (priv.length - 1))).1.length + 1) <
            (find_idle_workers iset index (min (poolSize - 1) (priv.length - 1))).1.length + 1 :=
          Nat.mod_lt _ (by omega)
        have hle : priv.length - priv.length /
            ((find_idle_workers iset index (min (poolSize - 1) (priv.length - 1))).1.length + 1) *
            ((find_idle_workers iset index (min (poolSize - 1) (priv.length - 1))).1.length + 1) ≤
            (find_idle_workers iset index (min (poolSize - 1) (priv.length - 1))).1.length := by
          omega
        have hlen : priv.length = priv.length /
            ((find_idle_workers iset index (min (poolSize - 1) (priv.length - 1))).1.length + 1) *
            ((find_idle_workers iset index (min (poolSize - 1) (priv.length - 1))).1.length + 1) +
            (priv.length - priv.length /
              ((find_idle_workers iset index (min (poolSize - 1) (priv.length - 1))).1.length + 1) *
              ((find_idle_workers iset index
                (min (poolSize - 1) (priv.length - 1))).1.length + 1)) := by
          omega
        have hspec := donateLoop_spec
          (find_idle_workers iset index (min (poolSize - 1) (priv.length - 1))).1 priv
          (priv.length /
            ((find_idle_workers iset index (min (poolSize - 1) (priv.length - 1))).1.length + 1))
          (priv.length - priv.length /
            ((find_idle_workers iset index (min (poolSize - 1) (priv.length - 1))).1.length + 1) *
            ((find_idle_workers iset index (min (poolSize - 1) (priv.length - 1))).1.length + 1))
          hle (by omega)
        have hextra : priv.length - priv.length /
            ((find_idle_workers iset index (min (poolSize - 1) (priv.length - 1))).1.length + 1) *
            ((find_idle_workers iset index (min (poolSize - 1) (priv.length - 1))).1.length + 1) =
            priv.length %
            ((find_idle_workers iset index (min (poolSize - 1) (priv.length - 1))).1.length + 1) := by
          omega
        refine ⟨?_, ?_, ?_, ?_⟩
        · intro d hd
          have hmem : d.2.length ∈ ((donateLoop priv
              (find_idle_workers iset index (min (poolSize - 1) (priv.length - 1))).1
              (priv.length /
                ((find_idle_workers iset index
                  (min (poolSize - 1) (priv.length - 1))).1.length + 1))
              (priv.length - priv.length /
                ((find_idle_workers iset index
                  (min (poolSize - 1) (priv.length - 1))).1.length + 1) *
                ((find_idle_workers iset index
                  (min (poolSize - 1) (priv.length - 1))).1.length + 1))).2.map
              fun d => d.2.length) :=
            List.mem_map_of_mem _ hd
          rw [hspec.2] at hmem
          rcases List.mem_append.mp hmem with hm | hm
          · exact Or.inr (List.eq_of_mem_replicate hm)
          · exact Or.inl (List.eq_of_mem_replicate hm)
        · rw [filter_length_by_map _ (fun d : Nat × List τ => d.2.length)]
          rw [hspec.2]
          rw [List.filter_append, List.filter_replicate, List.filter_replicate]
          simp only [decide_eq_true_eq]
          rw [if_pos trivial, if_neg (by omega)]
          simp only [List.append_nil, List.length_replicate]
          omega
        · exact hspec.1
        · rw [hspec.1]
          rw [Nat.one_le_div_iff (Nat.succ_pos _)]
          omega

/-- Witness for C1: three tasks, one acquired peer — the peer gets two
tasks, the donor keeps one. -/
theorem balance_work_fairness_witness :
    ([2] : List Nat).length =
      [0, 1, 2].length / (([(1, [0, 1])] : List (Nat × List Nat)).length + 1) :=
  (balance_work_fairness [0, 1, 2] sampleIdleSet2 2 0 [2] [(1, [0, 1])]
    { approxSize := 1, idleFlags := [WStatus.idle, WStatus.active] }
    (by decide) (by decide)).2.2.1

/-- C2: `enqueue` routes by exactly this decision order: worker caller with
`appears_empty` hint → own `enqueue_local`; else an acquired idle worker →
its `enqueue_foreign`; else a worker caller → own `enqueue_local`; else the
round-robin slot via `enqueue_foreign`, incrementing the cursor by one. -/
theorem pool_enqueue_routing {τ : Type} (p : PoolState τ) (self : Option Nat)
    (hashedId : Nat) (t : τ) :
    (∀ i, self = some i → appears_empty (p.workers.getD i (worker_mk τ)) = true →
      (pool_enqueue p self hashedId t).1 = Route.localFast i) ∧
    ((∀ i, self = some i → appears_empty (p.workers.getD i (worker_mk τ)) = false) →
      (∀ j, (find_idle_worker p.idleSet self hashedId).1 = some j →
        (pool_enqueue p self hashedId t).1 = Route.idleForeign j) ∧
      ((find_idle_worker p.idleSet self hashedId).1 = none →
        (∀ i, self = some i → (pool_enqueue p self hashedId t).1 = Route.localFallback i) ∧
        (self = none →
          (pool_enqueue p self hashedId t).1 =
            Route.roundRobinForeign (p.roundRobin % p.workers.length) ∧
          (pool_enqueue p self hashedId t).2.roundRobin = p.roundRobin + 1))) := by
  cases self with
  | none =>
    refine ⟨fun i h => by simp at h, ?_⟩
    intro _
    constructor
    · intro j hj
      simp [pool_enqueue, pool_enqueue_slow, hj]
    · intro hnone
      refine ⟨fun i h => by simp at h, ?_⟩
      intro _
      constructor <;> simp [pool_enqueue, pool_enqueue_slow, hnone]
  | some i =>
    cases happ : appears_empty (p.workers.getD i (worker_mk τ)) with
    | true =>
      have happn := happ
      simp only [List.getD_eq_getElem?_getD] at happn
      constructor
      · intro i2 hi2 _
        injection hi2 with hii
        subst hii
        simp [pool_enqueue, happn]
      · intro hfalse
        have hcontra := hfalse i rfl
        rw [happ] at hcontra
        simp at hcontra
    | false =>
      have happn := happ
      simp only [List.getD_eq_getElem?_getD] at happn
      constructor
      · intro i2 hi2 h2
        injection hi2 with hii
        subst hii
        rw [happ] at h2
        simp at h2
      · intro _
        constructor
        · intro j hj
          simp [pool_enqueue, pool_enqueue_slow, happn, hj]
        · intro hnone
          constructor
          · intro i2 hi2
            injection hi2 with hii
            subst hii
            simp [pool_enqueue, pool_enqueue_slow, happn, hnone]
          · intro hcontra
            simp at hcontra

/-- Witness for C2: an external producer on a fresh pool finds idle worker
0 and routes the task there via `enqueue_foreign`. -/
theorem pool_enqueue_routing_witness :
    (pool_enqueue samplePool2 none 0 99).1 = Route.idleForeign 0 :=
  ((pool_enqueue_routing samplePool2 none 0 99).2
    (fun i h => Option.noConfusion h)).1 0 (by decide)

end ThreadPool
